import Mathlib

/-!
Shallow embedding of `src/tiberius/src/protocol/stream/query.rs`: the result
multiplexers `QueryStream` / `QueryResult` (row-producing batches) and
`ExecuteResult` (count-only batches) over a sequence of decoded protocol
events.  The token source is modelled as the list of successfully decoded
tokens still to be delivered; transport-level errors are outside the claims
under study and are omitted from the event type.  Rust panics (`todo!()`,
`Option::unwrap` on `None`) are modelled explicitly as a `panic` outcome or
as `Option.none` results.
-/

namespace Tiberius

/-- A column of a result set (`Column { name }` in the source). -/
structure Column where
  name : String
deriving DecidableEq, Repr

/-- `DoneStatus` bit flags; only the `MORE` and `FINAL` bits are consulted by
the code under study (`done.status.contains(DoneStatus::MORE)` /
`contains(DoneStatus::FINAL)`). -/
structure DoneStatus where
  more : Bool
  final : Bool
deriving DecidableEq, Repr

/-- Payload of a `Done` / `DoneProc` / `DoneInProc` token: status flags and the
affected-row count `done_rows`. -/
structure TokenDone where
  status : DoneStatus
  done_rows : Nat
deriving DecidableEq, Repr

/-- `ReceivedToken`: a decoded protocol event.  `newResultset` carries the
column names of the new result set's metadata (`meta.columns[_].col_name`);
`row` carries the raw row payload (opaque here, identified by a number);
the `other` variant stands for every remaining variant of the Rust enum
(`Info`, `Order`, `ReturnStatus`, `ReturnValue`, `EnvChange`, ...), which the
multiplexers never inspect beyond matching them with a catch-all arm. -/
inductive ReceivedToken where
  | newResultset (columns : List String)
  | row (data : Nat)
  | done (d : TokenDone)
  | doneProc (d : TokenDone)
  | doneInProc (d : TokenDone)
  | other
deriving DecidableEq, Repr

/-- A `Row`: the shared schema reference plus the raw row payload. -/
structure Row where
  columns : List Column
  data : Nat
deriving DecidableEq, Repr

/-- `QueryStreamState` from the source. -/
inductive QueryStreamState where
  | initial
  | hasPotentiallyNext
  | hasNext
  | done
deriving DecidableEq, Repr

/-- `QueryStream`: the remaining token sequence plus the two schema slots and
the state.  (`prepared_stream` is the envelope-stripping adapter, specified as
a pass-through; it is modelled by the token list itself.) -/
structure QueryStream where
  tokens : List ReceivedToken
  current_columns : Option (List Column)
  previous_columns : Option (List Column)
  state : QueryStreamState
deriving DecidableEq, Repr

/-- The column objects built from a `NewResultset` token's metadata
(`meta.columns.iter().map(|x| Column { name: x.col_name.clone() })`). -/
def mkColumns (meta : List String) : List Column :=
  meta.map (fun n => { name := n })

/-- `QueryStream::store_columns`: move the old `current_columns` (if any) into
`previous_columns`, store the new columns into `current_columns`, and promote
the state `HasPotentiallyNext → HasNext`. -/
def QueryStream.store_columns (qs : QueryStream) (columns : List Column) : QueryStream :=
  let qs1 :=
    match qs.current_columns with
    | some old => { qs with previous_columns := some old }
    | none => qs
  let qs2 := { qs1 with current_columns := some columns }
  match qs2.state with
  | QueryStreamState.hasPotentiallyNext => { qs2 with state := QueryStreamState.hasNext }
  | _ => qs2

/-- Outcome of one call to `QueryStream::poll_next` (the future resolved):
either a row is yielded (`Poll::Ready(Some(Ok(row)))`), or end-of-stream
(`Poll::Ready(None)`), or the thread panics (`todo!()` on an unrecognized
token, or `unwrap()` of an absent schema). -/
inductive PollNextResult where
  | yields (r : Row) (rest : QueryStream)
  | done (rest : QueryStream)
  | panic
deriving DecidableEq, Repr

/-- The loop body of `QueryStream::poll_next`, with the stream's fields passed
explicitly so that the recursion is structural on the token list:
1. if the state is `HasNext` or `Done`, return end-of-stream without touching
   the source;
2. otherwise pull the next token (end-of-stream when the source is exhausted);
3. `NewResultset`: `store_columns` and continue;
4. `Row`: yield a `Row` from the current schema slot (`unwrap` panics when the
   slot is empty);
5. `Done`/`DoneProc`/`DoneInProc`: set the state to `HasPotentiallyNext` when
   the `MORE` bit is set, to `Done` otherwise, and continue;
6. any other token reaches `todo!()` and panics. -/
def pollNextAux (cur prev : Option (List Column)) (st : QueryStreamState) :
    List ReceivedToken → PollNextResult
  | [] =>
    match st with
    | QueryStreamState.hasNext => PollNextResult.done ⟨[], cur, prev, st⟩
    | QueryStreamState.done => PollNextResult.done ⟨[], cur, prev, st⟩
    | _ => PollNextResult.done ⟨[], cur, prev, st⟩
  | t :: rest =>
    match st with
    | QueryStreamState.hasNext => PollNextResult.done ⟨t :: rest, cur, prev, st⟩
    | QueryStreamState.done => PollNextResult.done ⟨t :: rest, cur, prev, st⟩
    | _ =>
      match t with
      | ReceivedToken.newResultset meta =>
        let qs := QueryStream.store_columns ⟨rest, cur, prev, st⟩ (mkColumns meta)
        pollNextAux qs.current_columns qs.previous_columns qs.state rest
      | ReceivedToken.row data =>
        match cur with
        | some cols => PollNextResult.yields ⟨cols, data⟩ ⟨rest, cur, prev, st⟩
        | none => PollNextResult.panic
      | ReceivedToken.done d =>
        if d.status.more then
          pollNextAux cur prev QueryStreamState.hasPotentiallyNext rest
        else
          pollNextAux cur prev QueryStreamState.done rest
      | ReceivedToken.doneProc d =>
        if d.status.more then
          pollNextAux cur prev QueryStreamState.hasPotentiallyNext rest
        else
          pollNextAux cur prev QueryStreamState.done rest
      | ReceivedToken.doneInProc d =>
        if d.status.more then
          pollNextAux cur prev QueryStreamState.hasPotentiallyNext rest
        else
          pollNextAux cur prev QueryStreamState.done rest
      | ReceivedToken.other => PollNextResult.panic

/-- `QueryStream::poll_next` on the stream record. -/
def QueryStream.poll_next (qs : QueryStream) : PollNextResult :=
  pollNextAux qs.current_columns qs.previous_columns qs.state qs.tokens

/-- `QueryStream::columns`: read the `previous_columns` slot in state
`HasNext`, the `current_columns` slot otherwise, and project the names.
The source `unwrap`s the slot; an empty slot (a panic in Rust) is modelled as
`none`. -/
def QueryStream.columns (qs : QueryStream) : Option (List String) :=
  match qs.state with
  | QueryStreamState.hasNext => qs.previous_columns.map (List.map Column.name)
  | _ => qs.current_columns.map (List.map Column.name)

/-- `QueryResult::next_resultset` (acting on the wrapped stream): reset
`HasNext` to `Initial` and return `true`; in every other state return `false`
and change nothing. -/
def QueryStream.next_resultset (qs : QueryStream) : Bool × QueryStream :=
  if qs.state = QueryStreamState.hasNext then
    (true, { qs with state := QueryStreamState.initial })
  else
    (false, qs)

/-- Outcome of `QueryStream::fetch_metadata`: success with the updated stream,
a protocol error (`Error::Protocol`) with its message, or `hang` when the
source is exhausted first (the Rust loop keeps polling an exhausted stream
forever, since `None` falls into the catch-all `continue` arm). -/
inductive FetchMetadataResult where
  | ok (s : QueryStream)
  | error (msg : String) (s : QueryStream)
  | hang
deriving DecidableEq, Repr

/-- The loop of `QueryStream::fetch_metadata`: skip tokens until a
`NewResultset` (store its columns and succeed) or a plain `Done` (fail with
`Error::Protocol("Never got result metadata")`).  Every other token —
including `DoneProc` and `DoneInProc` — falls into the catch-all `continue`
arm. -/
def fetchMetadataAux (cur prev : Option (List Column)) (st : QueryStreamState) :
    List ReceivedToken → FetchMetadataResult
  | [] => FetchMetadataResult.hang
  | t :: rest =>
    match t with
    | ReceivedToken.newResultset meta =>
      FetchMetadataResult.ok (QueryStream.store_columns ⟨rest, cur, prev, st⟩ (mkColumns meta))
    | ReceivedToken.done _ =>
      FetchMetadataResult.error "Never got result metadata" ⟨rest, cur, prev, st⟩
    | _ => fetchMetadataAux cur prev st rest

/-- `QueryStream::fetch_metadata` on the stream record. -/
def QueryStream.fetch_metadata (qs : QueryStream) : FetchMetadataResult :=
  fetchMetadataAux qs.current_columns qs.previous_columns qs.state qs.tokens

/-- Apply `QueryStream::poll_next` `n` times, following the stream returned by
each call (a panic aborts the iteration). -/
def pollN : Nat → QueryStream → QueryStream
  | 0, qs => qs
  | n + 1, qs =>
    match QueryStream.poll_next qs with
    | PollNextResult.yields _ s => pollN n s
    | PollNextResult.done s => pollN n s
    | PollNextResult.panic => qs

/-- Specification-side definition: the schema of the nearest `NewResultset`
event in the event list `pre` (read left to right, the last one wins),
defaulting to `cur` when `pre` contains none. -/
def nearestSchema (pre : List ReceivedToken) (cur : Option (List Column)) :
    Option (List Column) :=
  pre.foldl
    (fun acc t =>
      match t with
      | ReceivedToken.newResultset m => some (mkColumns m)
      | _ => acc)
    cur

/-- Outcome of one call to `ExecuteResult::poll_next`: a count is yielded
(`Poll::Ready(Some(Ok(n)))`), the stream ends (`Poll::Ready(None)`), or the
loop `hang`s forever re-polling an exhausted source (`None` falls into the
catch-all `continue` arm). -/
inductive ExecPollResult where
  | yields (n : Nat) (rest : List ReceivedToken)
  | ended (rest : List ReceivedToken)
  | hang
deriving DecidableEq, Repr

/-- The loop of `ExecuteResult::poll_next` over the raw token source:
`DoneProc` with the `FINAL` bit ends the stream; `DoneProc` without it and
`DoneInProc` (any status) yield `done_rows`; plain `Done` ends the stream;
every other token falls into the catch-all `continue` arm. -/
def ExecuteResult.poll_next : List ReceivedToken → ExecPollResult
  | [] => ExecPollResult.hang
  | t :: rest =>
    match t with
    | ReceivedToken.doneProc d =>
      if d.status.final then ExecPollResult.ended rest
      else ExecPollResult.yields d.done_rows rest
    | ReceivedToken.doneInProc d => ExecPollResult.yields d.done_rows rest
    | ReceivedToken.done _ => ExecPollResult.ended rest
    | _ => ExecuteResult.poll_next rest

theorem ExecuteResult.poll_next_yields_length {ts : List ReceivedToken} {n : Nat}
    {rest : List ReceivedToken} (h : ExecuteResult.poll_next ts = ExecPollResult.yields n rest) :
    rest.length < ts.length := by
  induction ts with
  | nil => simp [ExecuteResult.poll_next] at h
  | cons t ts ih =>
    cases t with
    | doneProc d =>
      by_cases hf : d.status.final <;>
        simp [ExecuteResult.poll_next, hf] at h
      rw [h.2.symm]
      simp
    | doneInProc d =>
      simp [ExecuteResult.poll_next] at h
      rw [h.2.symm]
      simp
    | done d => simp [ExecuteResult.poll_next] at h
    | newResultset m =>
      simp only [ExecuteResult.poll_next] at h
      exact Nat.lt_trans (ih h) (by simp)
    | row x =>
      simp only [ExecuteResult.poll_next] at h
      exact Nat.lt_trans (ih h) (by simp)
    | other =>
      simp only [ExecuteResult.poll_next] at h
      exact Nat.lt_trans (ih h) (by simp)

/-- `try_collect` over the `ExecuteResult` count stream: the list of all
yielded counts, `none` when the polling loop hangs. -/
def ExecuteResult.collect (ts : List ReceivedToken) : Option (List Nat) :=
  match h : ExecuteResult.poll_next ts with
  | ExecPollResult.hang => none
  | ExecPollResult.ended _ => some []
  | ExecPollResult.yields n rest => (ExecuteResult.collect rest).map (fun l => n :: l)
termination_by ts.length
decreasing_by exact ExecuteResult.poll_next_yields_length h

/-- The `try_fold` loop inside `ExecuteResult::total`, with accumulator
`acc`. -/
def ExecuteResult.totalAux (acc : Nat) (ts : List ReceivedToken) : Option Nat :=
  match h : ExecuteResult.poll_next ts with
  | ExecPollResult.hang => none
  | ExecPollResult.ended _ => some acc
  | ExecPollResult.yields n rest => ExecuteResult.totalAux (acc + n) rest
termination_by ts.length
decreasing_by exact ExecuteResult.poll_next_yields_length h

/-- `ExecuteResult::total`: fold the yielded counts into a running sum
starting at 0. -/
def ExecuteResult.total (ts : List ReceivedToken) : Option Nat :=
  ExecuteResult.totalAux 0 ts

section Helpers

theorem store_columns_current (qs : QueryStream) (cols : List Column) :
    (qs.store_columns cols).current_columns = some cols := by
  obtain ⟨ts, cur, prev, st⟩ := qs
  cases cur <;> cases st <;> rfl

theorem store_columns_tokens (qs : QueryStream) (cols : List Column) :
    (qs.store_columns cols).tokens = qs.tokens := by
  obtain ⟨ts, cur, prev, st⟩ := qs
  cases cur <;> cases st <;> rfl

theorem nearestSchema_append (pre : List ReceivedToken) (t : ReceivedToken)
    (c : Option (List Column)) :
    nearestSchema (pre ++ [t]) c =
      match t with
      | ReceivedToken.newResultset m => some (mkColumns m)
      | _ => nearestSchema pre c := by
  simp only [nearestSchema, List.foldl_append, List.foldl_cons, List.foldl_nil]

theorem poll_next_terminal (qs : QueryStream)
    (h : qs.state = QueryStreamState.hasNext ∨ qs.state = QueryStreamState.done) :
    qs.poll_next = PollNextResult.done qs := by
  obtain ⟨ts, cur, prev, st⟩ := qs
  rcases h with h | h <;> simp only at h <;> subst h <;> cases ts <;> rfl

theorem collect_hang {ts : List ReceivedToken}
    (h : ExecuteResult.poll_next ts = ExecPollResult.hang) :
    ExecuteResult.collect ts = none := by
  rw [ExecuteResult.collect]
  split
  · rfl
  · rename_i heq; rw [h] at heq; cases heq
  · rename_i heq; rw [h] at heq; cases heq

theorem collect_ended {ts rest : List ReceivedToken}
    (h : ExecuteResult.poll_next ts = ExecPollResult.ended rest) :
    ExecuteResult.collect ts = some [] := by
  rw [ExecuteResult.collect]
  split
  · rename_i heq; rw [h] at heq; cases heq
  · rfl
  · rename_i heq; rw [h] at heq; cases heq

theorem collect_yields {ts rest : List ReceivedToken} {n : Nat}
    (h : ExecuteResult.poll_next ts = ExecPollResult.yields n rest) :
    ExecuteResult.collect ts = (ExecuteResult.collect rest).map (fun l => n :: l) := by
  rw [ExecuteResult.collect]
  split
  · rename_i heq; rw [h] at heq; cases heq
  · rename_i heq; rw [h] at heq; cases heq
  · rename_i k r heq
    rw [h] at heq
    cases heq
    rfl

theorem totalAux_hang {ts : List ReceivedToken} (acc : Nat)
    (h : ExecuteResult.poll_next ts = ExecPollResult.hang) :
    ExecuteResult.totalAux acc ts = none := by
  rw [ExecuteResult.totalAux]
  split
  · rfl
  · rename_i heq; rw [h] at heq; cases heq
  · rename_i heq; rw [h] at heq; cases heq

theorem totalAux_ended {ts rest : List ReceivedToken} (acc : Nat)
    (h : ExecuteResult.poll_next ts = ExecPollResult.ended rest) :
    ExecuteResult.totalAux acc ts = some acc := by
  rw [ExecuteResult.totalAux]
  split
  · rename_i heq; rw [h] at heq; cases heq
  · rfl
  · rename_i heq; rw [h] at heq; cases heq

theorem totalAux_yields {ts rest : List ReceivedToken} {n : Nat} (acc : Nat)
    (h : ExecuteResult.poll_next ts = ExecPollResult.yields n rest) :
    ExecuteResult.totalAux acc ts = ExecuteResult.totalAux (acc + n) rest := by
  rw [ExecuteResult.totalAux]
  split
  · rename_i heq; rw [h] at heq; cases heq
  · rename_i heq; rw [h] at heq; cases heq
  · rename_i k r heq
    rw [h] at heq
    cases heq
    rfl

theorem totalAux_eq_collect :
    ∀ (n : Nat) (ts : List ReceivedToken), ts.length ≤ n → ∀ acc : Nat,
      ExecuteResult.totalAux acc ts =
        (ExecuteResult.collect ts).map (fun l => l.foldl (· + ·) acc) := by
  intro n
  induction n with
  | zero =>
    intro ts hle acc
    have hts : ts = [] := List.eq_nil_of_length_eq_zero (Nat.le_zero.mp hle)
    subst hts
    rw [@totalAux_hang [] acc rfl, @collect_hang [] rfl]
    rfl
  | succ n ih =>
    intro ts hle acc
    cases hp : ExecuteResult.poll_next ts with
    | hang => rw [totalAux_hang acc hp, collect_hang hp]; rfl
    | ended r => rw [totalAux_ended acc hp, collect_ended hp]; rfl
    | yields k rest =>
      rw [totalAux_yields acc hp, collect_yields hp]
      have hlen : rest.length < ts.length := ExecuteResult.poll_next_yields_length hp
      rw [ih rest (Nat.le_of_lt_succ (Nat.lt_of_lt_of_le hlen hle)) (acc + k)]
      cases ExecuteResult.collect rest <;> rfl

end Helpers

/-! ### Concrete event sequences from the specification's scenarios -/

/-- Scenario B: `[NewResultSet([a]), Row(1), Done(MORE), NewResultSet([b]),
Row(2), Done(no MORE)]`. -/
def scenarioB : List ReceivedToken :=
  [ReceivedToken.newResultset ["a"], ReceivedToken.row 1,
   ReceivedToken.done ⟨⟨true, false⟩, 0⟩,
   ReceivedToken.newResultset ["b"], ReceivedToken.row 2,
   ReceivedToken.done ⟨⟨false, false⟩, 0⟩]

/-- Scenario D: `[DoneInProc(1), DoneInProc(2), DoneProc(0, FINAL)]`. -/
def scenarioD : List ReceivedToken :=
  [ReceivedToken.doneInProc ⟨⟨false, false⟩, 1⟩,
   ReceivedToken.doneInProc ⟨⟨false, false⟩, 2⟩,
   ReceivedToken.doneProc ⟨⟨false, true⟩, 0⟩]

/-- The freshly created stream over scenario B. -/
def qsB0 : QueryStream := ⟨scenarioB, none, none, QueryStreamState.initial⟩

/-- Scenario B after the first row has been yielded. -/
def qsB1 : QueryStream :=
  ⟨[ReceivedToken.done ⟨⟨true, false⟩, 0⟩, ReceivedToken.newResultset ["b"],
    ReceivedToken.row 2, ReceivedToken.done ⟨⟨false, false⟩, 0⟩],
   some [⟨"a"⟩], none, QueryStreamState.initial⟩

/-- Scenario B in the `HasNext` window: the second result set's schema has
been fetched by the lookahead, the first one moved to `previous_columns`. -/
def qsB2 : QueryStream :=
  ⟨[ReceivedToken.row 2, ReceivedToken.done ⟨⟨false, false⟩, 0⟩],
   some [⟨"b"⟩], some [⟨"a"⟩], QueryStreamState.hasNext⟩

/-- Scenario B after the caller advanced with `next_resultset`. -/
def qsB3 : QueryStream :=
  ⟨[ReceivedToken.row 2, ReceivedToken.done ⟨⟨false, false⟩, 0⟩],
   some [⟨"b"⟩], some [⟨"a"⟩], QueryStreamState.initial⟩

/-- Scenario B after the second row has been yielded. -/
def qsB4 : QueryStream :=
  ⟨[ReceivedToken.done ⟨⟨false, false⟩, 0⟩],
   some [⟨"b"⟩], some [⟨"a"⟩], QueryStreamState.initial⟩

/-- Scenario B fully consumed (terminal state). -/
def qsB5 : QueryStream :=
  ⟨[], some [⟨"b"⟩], some [⟨"a"⟩], QueryStreamState.done⟩

/-! ### Claims -/

/-- Claim C1: on the event sequence `[NewResultSet([a]), Row(1), Done(MORE),
NewResultSet([b]), Row(2), Done(no MORE)]`, polling yields exactly the row
built from schema `[a]` and value 1 then end-of-stream; `columns()` then
reports `["a"]`; `next_resultset()` returns true; subsequent polling yields
exactly the row built from `[b]` and value 2 then end-of-stream; `columns()`
then reports `["b"]`; a final `next_resultset()` returns false. -/
theorem scenario_two_result_sets :
    QueryStream.poll_next qsB0 = PollNextResult.yields ⟨[⟨"a"⟩], 1⟩ qsB1
  ∧ QueryStream.poll_next qsB1 = PollNextResult.done qsB2
  ∧ QueryStream.poll_next qsB2 = PollNextResult.done qsB2
  ∧ QueryStream.columns qsB2 = some ["a"]
  ∧ QueryStream.next_resultset qsB2 = (true, qsB3)
  ∧ QueryStream.poll_next qsB3 = PollNextResult.yields ⟨[⟨"b"⟩], 2⟩ qsB4
  ∧ QueryStream.poll_next qsB4 = PollNextResult.done qsB5
  ∧ QueryStream.poll_next qsB5 = PollNextResult.done qsB5
  ∧ QueryStream.columns qsB5 = some ["b"]
  ∧ QueryStream.next_resultset qsB5 = (false, qsB5) :=
  ⟨rfl, rfl, rfl, rfl, rfl, rfl, rfl, rfl, rfl, rfl⟩

/-- Claim C3 (counterexample): an event outside the recognized set is *not*
skipped — polling the stream `[other]` from the initial state reaches the
catch-all `todo!()` arm and panics, instead of skipping the event and
reaching end-of-stream with the state unchanged as the claim predicts. -/
theorem unknown_token_not_skipped :
    QueryStream.poll_next ⟨[ReceivedToken.other], none, none, QueryStreamState.initial⟩ =
      PollNextResult.panic
  ∧ QueryStream.poll_next ⟨[ReceivedToken.other], none, none, QueryStreamState.initial⟩ ≠
      PollNextResult.done ⟨[], none, none, QueryStreamState.initial⟩ :=
  ⟨rfl, fun h => nomatch h⟩

/-- Claim C3 (amended): while polling in a pulling state (`Initial` or
`HasPotentiallyNext`), any protocol event other than `NewResultSet`, `Row`
and the `Done`/`DoneProc`/`DoneInProc` family reaches the catch-all
`todo!()` branch and panics; in the non-pulling states (`HasNext`, `Done`)
the event is simply never read. -/
theorem unknown_token_panics :
    (∀ (cur prev : Option (List Column)) (ts : List ReceivedToken),
        pollNextAux cur prev QueryStreamState.initial (ReceivedToken.other :: ts) =
          PollNextResult.panic)
  ∧ (∀ (cur prev : Option (List Column)) (ts : List ReceivedToken),
        pollNextAux cur prev QueryStreamState.hasPotentiallyNext (ReceivedToken.other :: ts) =
          PollNextResult.panic)
  ∧ (∀ (cur prev : Option (List Column)) (ts : List ReceivedToken),
        pollNextAux cur prev QueryStreamState.hasNext (ReceivedToken.other :: ts) =
          PollNextResult.done ⟨ReceivedToken.other :: ts, cur, prev, QueryStreamState.hasNext⟩)
  ∧ (∀ (cur prev : Option (List Column)) (ts : List ReceivedToken),
        pollNextAux cur prev QueryStreamState.done (ReceivedToken.other :: ts) =
          PollNextResult.done ⟨ReceivedToken.other :: ts, cur, prev, QueryStreamState.done⟩) :=
  ⟨fun _ _ _ => rfl, fun _ _ _ => rfl, fun _ _ _ => rfl, fun _ _ _ => rfl⟩

/-- Claim C6: `next_resultset()` returns true and resets the state to
`Initial` exactly when the state is `HasNext`; in every other state it
returns false and changes nothing, so repeated calls outside `HasNext` are
idempotent no-ops that never alter state or stream position. -/
theorem next_resultset_gate :
    (∀ qs : QueryStream,
        QueryStream.next_resultset qs =
          if qs.state = QueryStreamState.hasNext then
            (true, { qs with state := QueryStreamState.initial })
          else (false, qs))
  ∧ (∀ qs : QueryStream,
        (QueryStream.next_resultset qs).1 = true ↔ qs.state = QueryStreamState.hasNext)
  ∧ (∀ qs : QueryStream, qs.state ≠ QueryStreamState.hasNext →
        QueryStream.next_resultset qs = (false, qs)
      ∧ QueryStream.next_resultset (QueryStream.next_resultset qs).2 = (false, qs)) := by
  refine ⟨fun qs => rfl, fun qs => ?_, fun qs h => ?_⟩
  · by_cases h : qs.state = QueryStreamState.hasNext <;>
      simp [QueryStream.next_resultset, h]
  · constructor <;> simp [QueryStream.next_resultset, h]

/-- Witness for C6 at a concrete stream in the `Done` state. -/
theorem next_resultset_gate_witness :
    qsB5.state ≠ QueryStreamState.hasNext
  ∧ QueryStream.next_resultset qsB5 = (false, qsB5)
  ∧ QueryStream.next_resultset (QueryStream.next_resultset qsB5).2 = (false, qsB5) :=
  ⟨(fun h => nomatch h), (next_resultset_gate.2.2 qsB5 (fun h => nomatch h)).1,
   (next_resultset_gate.2.2 qsB5 (fun h => nomatch h)).2⟩

/-- Claim C7: whenever the stream state is `HasNext` or `Done`, polling
returns end-of-stream immediately and leaves the stream (in particular its
token position) untouched; once the state is `Done`, any number of
subsequent polls leaves the stream unchanged, so no further events are read
and no further rows are produced. -/
theorem terminal_states_block_polling :
    (∀ qs : QueryStream,
        qs.state = QueryStreamState.hasNext ∨ qs.state = QueryStreamState.done →
          QueryStream.poll_next qs = PollNextResult.done qs)
  ∧ (∀ (n : Nat) (qs : QueryStream), qs.state = QueryStreamState.done → pollN n qs = qs) := by
  refine ⟨poll_next_terminal, fun n => ?_⟩
  induction n with
  | zero => intro qs _; rfl
  | succ n ih =>
    intro qs h
    show pollN (n + 1) qs = qs
    simp only [pollN, poll_next_terminal qs (Or.inr h)]
    exact ih qs h

/-- Witness for C7 at a concrete stream in the `Done` state with pending
tokens. -/
theorem terminal_states_block_polling_witness :
    ((⟨[ReceivedToken.row 9], none, none, QueryStreamState.done⟩ : QueryStream).state =
        QueryStreamState.hasNext ∨
      (⟨[ReceivedToken.row 9], none, none, QueryStreamState.done⟩ : QueryStream).state =
        QueryStreamState.done)
  ∧ QueryStream.poll_next ⟨[ReceivedToken.row 9], none, none, QueryStreamState.done⟩ =
      PollNextResult.done ⟨[ReceivedToken.row 9], none, none, QueryStreamState.done⟩
  ∧ pollN 5 ⟨[ReceivedToken.row 9], none, none, QueryStreamState.done⟩ =
      ⟨[ReceivedToken.row 9], none, none, QueryStreamState.done⟩ :=
  ⟨Or.inr rfl,
   terminal_states_block_polling.1 ⟨[ReceivedToken.row 9], none, none, QueryStreamState.done⟩
     (Or.inr rfl),
   terminal_states_block_polling.2 5 ⟨[ReceivedToken.row 9], none, none, QueryStreamState.done⟩
     rfl⟩

/-- Claim C10: `columns()` is partial: it reads an empty schema slot (an
`unwrap` of `None`, a panic in the source) whenever the consulted slot was
never populated — in state `HasNext` when `previous_columns` is empty, and in
every other state when `current_columns` is empty; in particular on a fresh
stream in the `Initial` state, and in the reachable `HasNext` state produced
by the sequence `[Done(MORE), NewResultSet([a])]`, where no result set
preceded the lookahead one. -/
theorem columns_partiality :
    (∀ qs : QueryStream, qs.state = QueryStreamState.hasNext →
        qs.previous_columns = none → QueryStream.columns qs = none)
  ∧ (∀ qs : QueryStream, qs.state ≠ QueryStreamState.hasNext →
        qs.current_columns = none → QueryStream.columns qs = none)
  ∧ QueryStream.columns ⟨[], none, none, QueryStreamState.initial⟩ = none
  ∧ QueryStream.poll_next
      ⟨[ReceivedToken.done ⟨⟨true, false⟩, 0⟩, ReceivedToken.newResultset ["a"]],
       none, none, QueryStreamState.initial⟩ =
      PollNextResult.done ⟨[], some [⟨"a"⟩], none, QueryStreamState.hasNext⟩
  ∧ QueryStream.columns ⟨[], some [⟨"a"⟩], none, QueryStreamState.hasNext⟩ = none := by
  refine ⟨fun qs h1 h2 => ?_, fun qs h1 h2 => ?_, rfl, rfl, rfl⟩
  · obtain ⟨ts, cur, prev, st⟩ := qs
    simp only at h1 h2
    subst h1; subst h2
    rfl
  · obtain ⟨ts, cur, prev, st⟩ := qs
    simp only at h1 h2
    subst h2
    cases st <;> first | rfl | exact absurd rfl h1

/-- Witness for C10 at the reachable `HasNext` stream with an empty
`previous_columns` slot. -/
theorem columns_partiality_witness :
    (⟨[], some [⟨"a"⟩], none, QueryStreamState.hasNext⟩ : QueryStream).state =
      QueryStreamState.hasNext
  ∧ (⟨[], some [⟨"a"⟩], none, QueryStreamState.hasNext⟩ : QueryStream).previous_columns = none
  ∧ QueryStream.columns ⟨[], some [⟨"a"⟩], none, QueryStreamState.hasNext⟩ = none :=
  ⟨rfl, rfl,
   columns_partiality.1 ⟨[], some [⟨"a"⟩], none, QueryStreamState.hasNext⟩ rfl rfl⟩

/-- Claim C2: whenever a poll (started with `current_columns` equal to the
schema of the nearest `NewResultSet` among the already-consumed events `pre`)
yields a row, the row was built from a `Row` event in the sequence and its
schema is exactly the schema of the nearest `NewResultSet` event preceding
that `Row` event; moreover `columns()` reports the `previous_columns` slot in
state `HasNext` and the `current_columns` slot in every other state. -/
theorem rows_carry_nearest_schema :
    (∀ (pre ts : List ReceivedToken) (cur prev : Option (List Column))
        (st : QueryStreamState) (r : Row) (qs' : QueryStream),
        cur = nearestSchema pre none →
        pollNextAux cur prev st ts = PollNextResult.yields r qs' →
        ∃ pre2 d, pre ++ ts = pre2 ++ ReceivedToken.row d :: qs'.tokens
          ∧ r.data = d ∧ some r.columns = nearestSchema pre2 none
          ∧ qs'.current_columns = some r.columns)
  ∧ (∀ qs : QueryStream, qs.state = QueryStreamState.hasNext →
        QueryStream.columns qs = qs.previous_columns.map (List.map Column.name))
  ∧ (∀ qs : QueryStream, qs.state ≠ QueryStreamState.hasNext →
        QueryStream.columns qs = qs.current_columns.map (List.map Column.name)) := by
  refine ⟨?_, ?_, ?_⟩
  · intro pre ts cur prev st r qs'
    revert pre cur prev st
    induction ts with
    | nil =>
      intro pre cur prev st hcur hpoll
      exfalso
      cases st <;> simp [pollNextAux] at hpoll
    | cons t rest ih =>
      intro pre cur prev st hcur hpoll
      cases st with
      | hasNext => exfalso; simp [pollNextAux] at hpoll
      | done => exfalso; simp [pollNextAux] at hpoll
      | initial =>
        cases t with
        | newResultset m =>
          simp only [pollNextAux] at hpoll
          have hcur' :
              (QueryStream.store_columns ⟨rest, cur, prev, QueryStreamState.initial⟩
                  (mkColumns m)).current_columns =
                nearestSchema (pre ++ [ReceivedToken.newResultset m]) none := by
            rw [store_columns_current, nearestSchema_append]
          obtain ⟨pre2, d, h1, h2, h3, h4⟩ :=
            ih (pre ++ [ReceivedToken.newResultset m]) _ _ _ hcur' hpoll
          refine ⟨pre2, d, ?_, h2, h3, h4⟩
          rw [show pre ++ ReceivedToken.newResultset m :: rest =
                (pre ++ [ReceivedToken.newResultset m]) ++ rest by simp]
          exact h1
        | row x =>
          simp only [pollNextAux] at hpoll
          cases hc : cur with
          | none => rw [hc] at hpoll; exact absurd hpoll (fun h => nomatch h)
          | some cols =>
            rw [hc] at hpoll
            cases hpoll
            exact ⟨pre, x, rfl, rfl, by rw [← hc, hcur], rfl⟩
        | done d =>
          simp only [pollNextAux] at hpoll
          have hcur' : cur = nearestSchema (pre ++ [ReceivedToken.done d]) none := by
            rw [nearestSchema_append]; exact hcur
          by_cases hm : d.status.more = true
          · rw [if_pos hm] at hpoll
            obtain ⟨pre2, x, h1, h2, h3, h4⟩ :=
              ih (pre ++ [ReceivedToken.done d]) _ _ _ hcur' hpoll
            refine ⟨pre2, x, ?_, h2, h3, h4⟩
            rw [show pre ++ ReceivedToken.done d :: rest =
                  (pre ++ [ReceivedToken.done d]) ++ rest by simp]
            exact h1
          · rw [if_neg hm] at hpoll
            obtain ⟨pre2, x, h1, h2, h3, h4⟩ :=
              ih (pre ++ [ReceivedToken.done d]) _ _ _ hcur' hpoll
            refine ⟨pre2, x, ?_, h2, h3, h4⟩
            rw [show pre ++ ReceivedToken.done d :: rest =
                  (pre ++ [ReceivedToken.done d]) ++ rest by simp]
            exact h1
        | doneProc d =>
          simp only [pollNextAux] at hpoll
          have hcur' : cur = nearestSchema (pre ++ [ReceivedToken.doneProc d]) none := by
            rw [nearestSchema_append]; exact hcur
          by_cases hm : d.status.more = true
          · rw [if_pos hm] at hpoll
            obtain ⟨pre2, x, h1, h2, h3, h4⟩ :=
              ih (pre ++ [ReceivedToken.doneProc d]) _ _ _ hcur' hpoll
            refine ⟨pre2, x, ?_, h2, h3, h4⟩
            rw [show pre ++ ReceivedToken.doneProc d :: rest =
                  (pre ++ [ReceivedToken.doneProc d]) ++ rest by simp]
            exact h1
          · rw [if_neg hm] at hpoll
            obtain ⟨pre2, x, h1, h2, h3, h4⟩ :=
              ih (pre ++ [ReceivedToken.doneProc d]) _ _ _ hcur' hpoll
            refine ⟨pre2, x, ?_, h2, h3, h4⟩
            rw [show pre ++ ReceivedToken.doneProc d :: rest =
                  (pre ++ [ReceivedToken.doneProc d]) ++ rest by simp]
            exact h1
        | doneInProc d =>
          simp only [pollNextAux] at hpoll
          have hcur' : cur = nearestSchema (pre ++ [ReceivedToken.doneInProc d]) none := by
            rw [nearestSchema_append]; exact hcur
          by_cases hm : d.status.more = true
          · rw [if_pos hm] at hpoll
            obtain ⟨pre2, x, h1, h2, h3, h4⟩ :=
              ih (pre ++ [ReceivedToken.doneInProc d]) _ _ _ hcur' hpoll
            refine ⟨pre2, x, ?_, h2, h3, h4⟩
            rw [show pre ++ ReceivedToken.doneInProc d :: rest =
                  (pre ++ [ReceivedToken.doneInProc d]) ++ rest by simp]
            exact h1
          · rw [if_neg hm] at hpoll
            obtain ⟨pre2, x, h1, h2, h3, h4⟩ :=
              ih (pre ++ [ReceivedToken.doneInProc d]) _ _ _ hcur' hpoll
            refine ⟨pre2, x, ?_, h2, h3, h4⟩
            rw [show pre ++ ReceivedToken.doneInProc d :: rest =
                  (pre ++ [ReceivedToken.doneInProc d]) ++ rest by simp]
            exact h1
        | other => exact absurd hpoll (fun h => nomatch h)
      | hasPotentiallyNext =>
        cases t with
        | newResultset m =>
          simp only [pollNextAux] at hpoll
          have hcur' :
              (QueryStream.store_columns ⟨rest, cur, prev, QueryStreamState.hasPotentiallyNext⟩
                  (mkColumns m)).current_columns =
                nearestSchema (pre ++ [ReceivedToken.newResultset m]) none := by
            rw [store_columns_current, nearestSchema_append]
          obtain ⟨pre2, d, h1, h2, h3, h4⟩ :=
            ih (pre ++ [ReceivedToken.newResultset m]) _ _ _ hcur' hpoll
          refine ⟨pre2, d, ?_, h2, h3, h4⟩
          rw [show pre ++ ReceivedToken.newResultset m :: rest =
                (pre ++ [ReceivedToken.newResultset m]) ++ rest by simp]
          exact h1
        | row x =>
          simp only [pollNextAux] at hpoll
          cases hc : cur with
          | none => rw [hc] at hpoll; exact absurd hpoll (fun h => nomatch h)
          | some cols =>
            rw [hc] at hpoll
            cases hpoll
            exact ⟨pre, x, rfl, rfl, by rw [← hc, hcur], rfl⟩
        | done d =>
          simp only [pollNextAux] at hpoll
          have hcur' : cur = nearestSchema (pre ++ [ReceivedToken.done d]) none := by
            rw [nearestSchema_append]; exact hcur
          by_cases hm : d.status.more = true
          · rw [if_pos hm] at hpoll
            obtain ⟨pre2, x, h1, h2, h3, h4⟩ :=
              ih (pre ++ [ReceivedToken.done d]) _ _ _ hcur' hpoll
            refine ⟨pre2, x, ?_, h2, h3, h4⟩
            rw [show pre ++ ReceivedToken.done d :: rest =
                  (pre ++ [ReceivedToken.done d]) ++ rest by simp]
            exact h1
          · rw [if_neg hm] at hpoll
            obtain ⟨pre2, x, h1, h2, h3, h4⟩ :=
              ih (pre ++ [ReceivedToken.done d]) _ _ _ hcur' hpoll
            refine ⟨pre2, x, ?_, h2, h3, h4⟩
            rw [show pre ++ ReceivedToken.done d :: rest =
                  (pre ++ [ReceivedToken.done d]) ++ rest by simp]
            exact h1
        | doneProc d =>
          simp only [pollNextAux] at hpoll
          have hcur' : cur = nearestSchema (pre ++ [ReceivedToken.doneProc d]) none := by
            rw [nearestSchema_append]; exact hcur
          by_cases hm : d.status.more = true
          · rw [if_pos hm] at hpoll
            obtain ⟨pre2, x, h1, h2, h3, h4⟩ :=
              ih (pre ++ [ReceivedToken.doneProc d]) _ _ _ hcur' hpoll
            refine ⟨pre2, x, ?_, h2, h3, h4⟩
            rw [show pre ++ ReceivedToken.doneProc d :: rest =
                  (pre ++ [ReceivedToken.doneProc d]) ++ rest by simp]
            exact h1
          · rw [if_neg hm] at hpoll
            obtain ⟨pre2, x, h1, h2, h3, h4⟩ :=
              ih (pre ++ [ReceivedToken.doneProc d]) _ _ _ hcur' hpoll
            refine ⟨pre2, x, ?_, h2, h3, h4⟩
            rw [show pre ++ ReceivedToken.doneProc d :: rest =
                  (pre ++ [ReceivedToken.doneProc d]) ++ rest by simp]
            exact h1
        | doneInProc d =>
          simp only [pollNextAux] at hpoll
          have hcur' : cur = nearestSchema (pre ++ [ReceivedToken.doneInProc d]) none := by
            rw [nearestSchema_append]; exact hcur
          by_cases hm : d.status.more = true
          · rw [if_pos hm] at hpoll
            obtain ⟨pre2, x, h1, h2, h3, h4⟩ :=
              ih (pre ++ [ReceivedToken.doneInProc d]) _ _ _ hcur' hpoll
            refine ⟨pre2, x, ?_, h2, h3, h4⟩
            rw [show pre ++ ReceivedToken.doneInProc d :: rest =
                  (pre ++ [ReceivedToken.doneInProc d]) ++ rest by simp]
            exact h1
          · rw [if_neg hm] at hpoll
            obtain ⟨pre2, x, h1, h2, h3, h4⟩ :=
              ih (pre ++ [ReceivedToken.doneInProc d]) _ _ _ hcur' hpoll
            refine ⟨pre2, x, ?_, h2, h3, h4⟩
            rw [show pre ++ ReceivedToken.doneInProc d :: rest =
                  (pre ++ [ReceivedToken.doneInProc d]) ++ rest by simp]
            exact h1
        | other => exact absurd hpoll (fun h => nomatch h)
  · intro qs h
    obtain ⟨ts, cur, prev, st⟩ := qs
    simp only at h
    subst h
    rfl
  · intro qs h
    obtain ⟨ts, cur, prev, st⟩ := qs
    simp only at h
    cases st <;> first | rfl | exact absurd rfl h

/-- Witness for C2: the first poll of scenario B yields the row built from
schema `[a]`, whose nearest preceding `NewResultSet` is `NewResultSet([a])`. -/
theorem rows_carry_nearest_schema_witness :
    (none : Option (List Column)) = nearestSchema [] none
  ∧ pollNextAux none none QueryStreamState.initial scenarioB =
      PollNextResult.yields ⟨[⟨"a"⟩], 1⟩ qsB1
  ∧ ∃ pre2 d, [] ++ scenarioB = pre2 ++ ReceivedToken.row d :: qsB1.tokens
      ∧ (⟨[⟨"a"⟩], 1⟩ : Row).data = d
      ∧ some (⟨[⟨"a"⟩], 1⟩ : Row).columns = nearestSchema pre2 none
      ∧ qsB1.current_columns = some (⟨[⟨"a"⟩], 1⟩ : Row).columns :=
  ⟨rfl, rfl,
   rows_carry_nearest_schema.1 [] scenarioB none none QueryStreamState.initial
     ⟨[⟨"a"⟩], 1⟩ qsB1 rfl rfl⟩

theorem collect_skip {x : ReceivedToken} {ts : List ReceivedToken}
    (hx : ExecuteResult.poll_next (x :: ts) = ExecuteResult.poll_next ts) :
    ExecuteResult.collect (x :: ts) = ExecuteResult.collect ts := by
  cases hp : ExecuteResult.poll_next ts with
  | hang => rw [collect_hang (hx.trans hp), collect_hang hp]
  | ended r => rw [collect_ended (hx.trans hp), collect_ended hp]
  | yields n r => rw [collect_yields (hx.trans hp), collect_yields hp]

/-- Claim C4: for the Execute Result count stream, `DoneProc` with `FINAL`
ends the stream with nothing further yielded; `DoneProc` or `DoneInProc`
without `FINAL` yields the carried count as one item and the stream
continues; plain `Done` ends the stream immediately with its count never
yielded; every other event kind is skipped. -/
theorem execute_done_family_semantics :
    (∀ (d : TokenDone) (ts : List ReceivedToken), d.status.final = true →
        ExecuteResult.collect (ReceivedToken.doneProc d :: ts) = some [])
  ∧ (∀ (d : TokenDone) (ts : List ReceivedToken), d.status.final = false →
        ExecuteResult.collect (ReceivedToken.doneProc d :: ts) =
          (ExecuteResult.collect ts).map (fun l => d.done_rows :: l))
  ∧ (∀ (d : TokenDone) (ts : List ReceivedToken), d.status.final = false →
        ExecuteResult.collect (ReceivedToken.doneInProc d :: ts) =
          (ExecuteResult.collect ts).map (fun l => d.done_rows :: l))
  ∧ (∀ (d : TokenDone) (ts : List ReceivedToken),
        ExecuteResult.collect (ReceivedToken.done d :: ts) = some [])
  ∧ (∀ (m : List String) (ts : List ReceivedToken),
        ExecuteResult.collect (ReceivedToken.newResultset m :: ts) =
          ExecuteResult.collect ts)
  ∧ (∀ (x : Nat) (ts : List ReceivedToken),
        ExecuteResult.collect (ReceivedToken.row x :: ts) = ExecuteResult.collect ts)
  ∧ (∀ ts : List ReceivedToken,
        ExecuteResult.collect (ReceivedToken.other :: ts) = ExecuteResult.collect ts) := by
  refine ⟨fun d ts hf => ?_, fun d ts hf => ?_, fun d ts hf => ?_, fun d ts => ?_,
    fun m ts => collect_skip rfl, fun x ts => collect_skip rfl, fun ts => collect_skip rfl⟩
  · exact collect_ended (show ExecuteResult.poll_next (ReceivedToken.doneProc d :: ts) =
      ExecPollResult.ended ts by simp [ExecuteResult.poll_next, hf])
  · exact collect_yields (show ExecuteResult.poll_next (ReceivedToken.doneProc d :: ts) =
      ExecPollResult.yields d.done_rows ts by simp [ExecuteResult.poll_next, hf])
  · exact collect_yields (show ExecuteResult.poll_next (ReceivedToken.doneInProc d :: ts) =
      ExecPollResult.yields d.done_rows ts from rfl)
  · exact collect_ended (show ExecuteResult.poll_next (ReceivedToken.done d :: ts) =
      ExecPollResult.ended ts from rfl)

/-- Witness for C4: a `FINAL` `DoneProc` ends the stream with nothing
yielded, and a non-`FINAL` `DoneInProc` yields its count and continues. -/
theorem execute_done_family_semantics_witness :
    (⟨⟨false, true⟩, 7⟩ : TokenDone).status.final = true
  ∧ ExecuteResult.collect [ReceivedToken.doneProc ⟨⟨false, true⟩, 7⟩] = some []
  ∧ (⟨⟨false, false⟩, 4⟩ : TokenDone).status.final = false
  ∧ ExecuteResult.collect
      [ReceivedToken.doneInProc ⟨⟨false, false⟩, 4⟩, ReceivedToken.done ⟨⟨false, false⟩, 0⟩] =
      (ExecuteResult.collect [ReceivedToken.done ⟨⟨false, false⟩, 0⟩]).map
        (fun l => (4 : Nat) :: l) :=
  ⟨rfl, execute_done_family_semantics.1 ⟨⟨false, true⟩, 7⟩ [] rfl, rfl,
   execute_done_family_semantics.2.2.1 ⟨⟨false, false⟩, 4⟩
     [ReceivedToken.done ⟨⟨false, false⟩, 0⟩] rfl⟩

/-- Claim C5 (counterexample): `fetch_metadata` does *not* skip every event
until the first `NewResultSet`: on `[Done(MORE), NewResultSet([a])]` the
non-terminal `Done` (whose `MORE` flag is set) is not skipped — the call
fails with the synthesized protocol error instead of succeeding with schema
`[a]` as the claim predicts. -/
theorem fetch_metadata_more_done_not_skipped :
    QueryStream.fetch_metadata
      ⟨[ReceivedToken.done ⟨⟨true, false⟩, 0⟩, ReceivedToken.newResultset ["a"]],
       none, none, QueryStreamState.initial⟩ =
      FetchMetadataResult.error "Never got result metadata"
        ⟨[ReceivedToken.newResultset ["a"]], none, none, QueryStreamState.initial⟩
  ∧ QueryStream.fetch_metadata
      ⟨[ReceivedToken.done ⟨⟨true, false⟩, 0⟩, ReceivedToken.newResultset ["a"]],
       none, none, QueryStreamState.initial⟩ ≠
      FetchMetadataResult.ok ⟨[], some [⟨"a"⟩], none, QueryStreamState.initial⟩ :=
  ⟨rfl, fun h => nomatch h⟩

/-- Claim C5 (amended): `fetch_metadata` skips events — including `DoneProc`
and `DoneInProc` terminators and rows — until the first `NewResultSet`, which
it stores through the shared column-storing routine (leaving an `Initial`
state unchanged) and returns success; if a plain `Done` with *any* status is
reached before any `NewResultSet` has been seen, it fails with the
synthesized protocol error "Never got result metadata"; in particular the
sequence `[Done(no MORE)]` fails that way. -/
theorem fetch_metadata_semantics :
    (∀ (cur prev : Option (List Column)) (st : QueryStreamState)
        (m : List String) (ts : List ReceivedToken),
        fetchMetadataAux cur prev st (ReceivedToken.newResultset m :: ts) =
          FetchMetadataResult.ok
            (QueryStream.store_columns ⟨ts, cur, prev, st⟩ (mkColumns m)))
  ∧ (∀ (cur prev : Option (List Column)) (st : QueryStreamState)
        (d : TokenDone) (ts : List ReceivedToken),
        fetchMetadataAux cur prev st (ReceivedToken.done d :: ts) =
          FetchMetadataResult.error "Never got result metadata" ⟨ts, cur, prev, st⟩)
  ∧ (∀ (cur prev : Option (List Column)) (st : QueryStreamState)
        (d : TokenDone) (ts : List ReceivedToken),
        fetchMetadataAux cur prev st (ReceivedToken.doneProc d :: ts) =
          fetchMetadataAux cur prev st ts)
  ∧ (∀ (cur prev : Option (List Column)) (st : QueryStreamState)
        (d : TokenDone) (ts : List ReceivedToken),
        fetchMetadataAux cur prev st (ReceivedToken.doneInProc d :: ts) =
          fetchMetadataAux cur prev st ts)
  ∧ (∀ (cur prev : Option (List Column)) (st : QueryStreamState)
        (x : Nat) (ts : List ReceivedToken),
        fetchMetadataAux cur prev st (ReceivedToken.row x :: ts) =
          fetchMetadataAux cur prev st ts)
  ∧ (∀ (cur prev : Option (List Column)) (st : QueryStreamState)
        (ts : List ReceivedToken),
        fetchMetadataAux cur prev st (ReceivedToken.other :: ts) =
          fetchMetadataAux cur prev st ts)
  ∧ (∀ (cur prev : Option (List Column)) (m : List String) (ts : List ReceivedToken),
        (QueryStream.store_columns ⟨ts, cur, prev, QueryStreamState.initial⟩
            (mkColumns m)).state = QueryStreamState.initial)
  ∧ QueryStream.fetch_metadata
      ⟨[ReceivedToken.done ⟨⟨false, false⟩, 0⟩], none, none, QueryStreamState.initial⟩ =
      FetchMetadataResult.error "Never got result metadata"
        ⟨[], none, none, QueryStreamState.initial⟩ :=
  ⟨fun _ _ _ _ _ => rfl, fun _ _ _ _ _ => rfl, fun _ _ _ _ _ => rfl,
   fun _ _ _ _ _ => rfl, fun _ _ _ _ _ => rfl, fun _ _ _ _ => rfl,
   fun cur prev m ts => by cases cur <;> rfl, rfl⟩

/-- Claim C8: `total()` returns the sum of the counts yielded by the count
stream (folded left with accumulator 0); on scenario D the yielded counts
are `[1, 2]` and `total()` returns 3. -/
theorem total_sums_counts :
    (∀ ts : List ReceivedToken,
        ExecuteResult.total ts =
          (ExecuteResult.collect ts).map (fun l => l.foldl (· + ·) 0))
  ∧ ExecuteResult.collect scenarioD = some [1, 2]
  ∧ ExecuteResult.total scenarioD = some 3 := by
  have hD1 : ExecuteResult.poll_next scenarioD =
      ExecPollResult.yields 1
        [ReceivedToken.doneInProc ⟨⟨false, false⟩, 2⟩,
         ReceivedToken.doneProc ⟨⟨false, true⟩, 0⟩] := rfl
  have hD2 : ExecuteResult.poll_next
      [ReceivedToken.doneInProc ⟨⟨false, false⟩, 2⟩,
       ReceivedToken.doneProc ⟨⟨false, true⟩, 0⟩] =
      ExecPollResult.yields 2 [ReceivedToken.doneProc ⟨⟨false, true⟩, 0⟩] := rfl
  have hD3 : ExecuteResult.poll_next [ReceivedToken.doneProc ⟨⟨false, true⟩, 0⟩] =
      ExecPollResult.ended [] := rfl
  refine ⟨fun ts => totalAux_eq_collect ts.length ts (Nat.le_refl _) 0, ?_, ?_⟩
  · rw [collect_yields hD1, collect_yields hD2, collect_ended hD3]
    rfl
  · show ExecuteResult.totalAux 0 scenarioD = some 3
    rw [totalAux_yields 0 hD1, totalAux_yields (0 + 1) hD2, totalAux_ended (0 + 1 + 2) hD3]

/-- Claim C9: a `DoneInProc` event always yields its carried count, even when
its status has the `FINAL` flag set; the count stream ends only on a
`DoneProc` with `FINAL` or on a plain `Done` — never on a `DoneInProc`. -/
theorem done_in_proc_always_yields :
    (∀ (d : TokenDone) (ts : List ReceivedToken),
        ExecuteResult.poll_next (ReceivedToken.doneInProc d :: ts) =
          ExecPollResult.yields d.done_rows ts)
  ∧ (∀ (ts rest : List ReceivedToken),
        ExecuteResult.poll_next ts = ExecPollResult.ended rest →
          ∃ pre, (∃ d, ts = pre ++ ReceivedToken.doneProc d :: rest ∧ d.status.final = true)
               ∨ (∃ d, ts = pre ++ ReceivedToken.done d :: rest))
  ∧ ExecuteResult.collect
      [ReceivedToken.doneInProc ⟨⟨false, true⟩, 5⟩,
       ReceivedToken.done ⟨⟨false, false⟩, 0⟩] = some [5] := by
  refine ⟨fun d ts => rfl, ?_, ?_⟩
  · intro ts
    induction ts with
    | nil => intro rest h; exact absurd h (fun h => nomatch h)
    | cons t r ih =>
      intro rest h
      cases t with
      | doneProc d =>
        by_cases hf : d.status.final = true
        · rw [show ExecuteResult.poll_next (ReceivedToken.doneProc d :: r) =
              ExecPollResult.ended r by simp [ExecuteResult.poll_next, hf]] at h
          cases h
          exact ⟨[], Or.inl ⟨d, rfl, hf⟩⟩
        · rw [show ExecuteResult.poll_next (ReceivedToken.doneProc d :: r) =
              ExecPollResult.yields d.done_rows r by
                simp [ExecuteResult.poll_next, hf]] at h
          exact absurd h (fun h => nomatch h)
      | doneInProc d => exact absurd h (fun h => nomatch h)
      | done d =>
        have h' : ExecPollResult.ended r = ExecPollResult.ended rest := h
        cases h'
        exact ⟨[], Or.inr ⟨d, rfl⟩⟩
      | newResultset m =>
        obtain ⟨pre, hc⟩ := ih rest h
        refine ⟨ReceivedToken.newResultset m :: pre, ?_⟩
        rcases hc with ⟨d, h1, h2⟩ | ⟨d, h1⟩
        · exact Or.inl ⟨d, by rw [h1]; rfl, h2⟩
        · exact Or.inr ⟨d, by rw [h1]; rfl⟩
      | row x =>
        obtain ⟨pre, hc⟩ := ih rest h
        refine ⟨ReceivedToken.row x :: pre, ?_⟩
        rcases hc with ⟨d, h1, h2⟩ | ⟨d, h1⟩
        · exact Or.inl ⟨d, by rw [h1]; rfl, h2⟩
        · exact Or.inr ⟨d, by rw [h1]; rfl⟩
      | other =>
        obtain ⟨pre, hc⟩ := ih rest h
        refine ⟨ReceivedToken.other :: pre, ?_⟩
        rcases hc with ⟨d, h1, h2⟩ | ⟨d, h1⟩
        · exact Or.inl ⟨d, by rw [h1]; rfl, h2⟩
        · exact Or.inr ⟨d, by rw [h1]; rfl⟩
  · rw [collect_yields (show ExecuteResult.poll_next
        [ReceivedToken.doneInProc ⟨⟨false, true⟩, 5⟩,
         ReceivedToken.done ⟨⟨false, false⟩, 0⟩] =
      ExecPollResult.yields 5 [ReceivedToken.done ⟨⟨false, false⟩, 0⟩] from rfl)]
    rw [collect_ended (show ExecuteResult.poll_next
        [ReceivedToken.done ⟨⟨false, false⟩, 0⟩] = ExecPollResult.ended [] from rfl)]
    rfl

/-- Witness for C9: the stream over `[Done(no flags)]` ends, and the ending
token is exhibited as the plain `Done`. -/
theorem done_in_proc_always_yields_witness :
    ExecuteResult.poll_next [ReceivedToken.done ⟨⟨false, false⟩, 0⟩] =
      ExecPollResult.ended []
  ∧ ∃ pre,
      (∃ d, [ReceivedToken.done ⟨⟨false, false⟩, 0⟩] =
          pre ++ ReceivedToken.doneProc d :: [] ∧ d.status.final = true)
    ∨ (∃ d, [ReceivedToken.done ⟨⟨false, false⟩, 0⟩] =
          pre ++ ReceivedToken.done d :: []) :=
  ⟨rfl, done_in_proc_always_yields.2.1 [ReceivedToken.done ⟨⟨false, false⟩, 0⟩] [] rfl⟩

end Tiberius
